import Mathlib

/-!
Verification development for the Central Synchronization Engine of the
crowdsec repository (package apiserver): the pull/push coordinator that
synchronizes ban decisions with the central API, aggregates them into
alerts, filters them against whitelists, caches blocklist fetches, and
pushes local alerts upstream in batches.

The engine itself (apic.go) is exercised here through a shallow embedding:
machine integers are Nat, IPv4 addresses are their numeric value, fallible
operations return Except, and the remote server is passed in as a function
from the conditional-request header to a response.
-/

set_option autoImplicit false

namespace Apic

/-- Origin of a decision: remote-community feed (capi), a named remote list
or blocklist fetch (list), a local manual decision (cscli), or local
detection (crowdsec). -/
inductive Origin where
  | capi
  | list
  | cscli
  | crowdsec
deriving DecidableEq, Repr

/-- A decision: a directive to block a subject (the value, an IPv4 address
as a number) for a time window ending at untilTime.  Valid decisions are
those whose untilTime is strictly in the future. -/
structure Decision where
  origin : Origin
  scope : String
  value : Nat
  dtype : String
  scenario : String
  untilTime : Nat
deriving DecidableEq, Repr

/-- An alert: a provenance-grouped collection of decisions.  The source
scope labels the provenance (community pull, lists:name, or a detection
scenario); scenarioHash is the non-empty hash marker of a tainted scenario;
simulated marks alerts that must never be shared. -/
structure Alert where
  sourceScope : String
  scenario : String
  scenarioHash : String := ""
  simulated : Bool := false
  decisions : List Decision := []
deriving DecidableEq, Repr

/-- The fixed community-scope identifier labelling the single alert that
collects all remote-community decisions of one pull cycle. -/
def communityScope : String := "crowdsecurity/community-blocklist"

/-- Modelled from the spec: createAlertForDecision (apic.go, absent from
src/).  A remote-community decision yields the one community alert (fixed
label, independent of the decision); a remote-list decision yields an empty
alert labelled lists:name for its scenario name. -/
def createAlertForDecision (d : Decision) : Alert :=
  match d.origin with
  | .capi => { sourceScope := communityScope, scenario := communityScope }
  | .list => { sourceScope := "lists:" ++ d.scenario, scenario := d.scenario }
  | _ => { sourceScope := d.scenario, scenario := d.scenario }

/-- Modelled from the spec: the grouping key of Decision Merge & Alert
Aggregation.  A community decision belongs to the alert labelled with the
fixed community identifier; a list decision belongs to the alert of its
own scenario/list name. -/
def decisionMatchesAlert (a : Alert) (d : Decision) : Bool :=
  match d.origin with
  | .capi => a.sourceScope == communityScope
  | .list => a.sourceScope == "lists:" ++ d.scenario
  | _ => false

/-- One step of createAlertsForDecisions: open a fresh alert for the
decision unless its group already has one. -/
def createStep (acc : List Alert) (d : Decision) : List Alert :=
  if acc.any (fun a => decisionMatchesAlert a d) then acc
  else acc ++ [createAlertForDecision d]

/-- Modelled from the spec: createAlertsForDecisions (apic.go, absent from
src/).  Walk the incoming decisions and open a fresh (empty) alert for each
decision whose group has no alert yet. -/
def createAlertsForDecisions (ds : List Decision) : List Alert :=
  ds.foldl createStep []

/-- Append a decision to the first alert of the list it matches; a decision
matching no alert is dropped (orphaned). -/
def addToFirstMatching : List Alert → Decision → List Alert
  | [], _ => []
  | a :: rest, d =>
    if decisionMatchesAlert a d then
      { a with decisions := a.decisions ++ [d] } :: rest
    else
      a :: addToFirstMatching rest d

/-- Modelled from the spec: fillAlertsWithDecisions (apic.go, absent from
src/).  Route every incoming decision, in input order and without
deduplication, into the alert of its group. -/
def fillAlertsWithDecisions (alerts : List Alert) (ds : List Decision) : List Alert :=
  ds.foldl addToFirstMatching alerts

/-- Modelled from the spec: the aggregation pipeline of one pull cycle:
open the alerts for the incoming decisions, then fill them. -/
def aggregate (ds : List Decision) : List Alert :=
  fillAlertsWithDecisions (createAlertsForDecisions ds) ds

/-! ## Whitelist filter -/

/-- An IPv4 address as its numeric 32-bit value. -/
def ipv4 (a b c d : Nat) : Nat := ((a * 256 + b) * 256 + c) * 256 + d

/-- A CIDR range: base address and mask length. -/
structure Cidr where
  base : Nat
  maskLen : Nat
deriving DecidableEq, Repr

/-- An address lies in a CIDR range when it agrees with the base on the
first maskLen bits. -/
def cidrContains (c : Cidr) (ip : Nat) : Bool :=
  ip / 2 ^ (32 - c.maskLen) == c.base / 2 ^ (32 - c.maskLen)

/-- The statically configured whitelist: individual addresses and CIDR
ranges. -/
structure CapiWhitelist where
  ips : List Nat := []
  cidrs : List Cidr := []
deriving DecidableEq, Repr

/-- Modelled from the spec: the Whitelist Filter (apic.go, absent from
src/).  A value is whitelisted when it exactly matches a configured
address, falls inside a configured CIDR range, or matches a pulled
allowlist entry. -/
def isWhitelisted (wl : CapiWhitelist) (allowlist : List Nat) (v : Nat) : Bool :=
  wl.ips.contains v || wl.cidrs.any (fun c => cidrContains c v) || allowlist.contains v

/-! ## Pull: the decisions-stream response and PullTop -/

/-- One entry of the deleted-decisions list: a scope and the values to
remove. -/
structure DeletedItem where
  scope : String
  values : List Nat
deriving DecidableEq, Repr

/-- One value of a new-decisions group, with its duration. -/
structure NewItemDecision where
  value : Nat
  duration : Nat
deriving DecidableEq, Repr

/-- One group of the new-decisions list: a scenario, a scope and the
value+duration pairs. -/
structure NewItem where
  scenario : String
  scope : String
  decisions : List NewItemDecision
deriving DecidableEq, Repr

/-- The parsed decisions-stream response (the links section is handled by
the separate blocklist/allowlist fetchers). -/
structure StreamResponse where
  deleted : List DeletedItem := []
  newItems : List NewItem := []
deriving DecidableEq, Repr

/-- Modelled from the spec: expanding one new-decisions group into
individual community decisions expiring now + duration. -/
def expandNewItem (now : Nat) (item : NewItem) : List Decision :=
  item.decisions.map fun nd =>
    { origin := .capi, scope := item.scope, value := nd.value,
      dtype := "ban", scenario := item.scenario, untilTime := now + nd.duration }

/-- Does some entry of the deleted list name this decision by (scope, value)? -/
def deletedMatches (deleted : List DeletedItem) (d : Decision) : Bool :=
  deleted.any fun item => item.scope == d.scope && item.values.contains d.value

/-- Modelled from the spec: deleted-list reconciliation of PullTop
(apic.go, absent from src/).  Remove every stored valid decision named by
some deleted (scope, value) pair; entries matching nothing are ignored. -/
def applyDeleted (now : Nat) (stored : List Decision) (deleted : List DeletedItem) :
    List Decision :=
  stored.filter fun d => !(decide (now < d.untilTime) && deletedMatches deleted d)

/-- Modelled from the spec: the persistence-relevant core of PullTop
(apic.go, absent from src/) on an already-parsed response: apply the
deleted list to the stored decisions, expand the new groups, drop
whitelisted decisions before aggregation, and persist the survivors with
their aggregated alerts. -/
def pullTopProcess (stored : List Decision) (wl : CapiWhitelist) (allowlist : List Nat)
    (resp : StreamResponse) (now : Nat) : List Decision × List Alert :=
  let afterDelete := applyDeleted now stored resp.deleted
  let incoming := (resp.newItems.map (expandNewItem now)).flatten
  let kept := incoming.filter fun d => !isWhitelisted wl allowlist d.value
  (afterDelete ++ kept, aggregate kept)

/-- Modelled from the spec: PullTop (apic.go, absent from src/).  A
network/parse failure of the stream call aborts the cycle and is returned;
a parsed response is processed by pullTopProcess and the cycle succeeds. -/
def pullTop (stored : List Decision) (wl : CapiWhitelist) (allowlist : List Nat)
    (fetch : Except String StreamResponse) (now : Nat) :
    Except String (List Decision × List Alert) :=
  match fetch with
  | .error e => .error e
  | .ok resp => .ok (pullTopProcess stored wl allowlist resp now)

/-! ## Blocklist fetcher -/

/-- A blocklist link from the links section of the stream response. -/
structure BlocklistLink where
  url : String
  name : String
  scope : String
  remediation : String
  duration : Nat
deriving DecidableEq, Repr

/-- The remote blocklist server's answer: not modified, a modified body of
one value per line, or a network failure. -/
inductive BlocklistResponse where
  | notModified
  | modified (lines : List Nat)
  | failure (msg : String)
deriving DecidableEq, Repr

/-- The HTTP request for a blocklist: its URL and the optional
If-Modified-Since conditional header. -/
structure BlocklistRequest where
  url : String
  ifModifiedSince : Option Nat
deriving DecidableEq, Repr

/-- Modelled from the spec: the conditional request built by PullBlocklist
(apic.go, absent from src/).  The stored last-pull timestamp is attached as
the If-Modified-Since header unless forceRefresh is set or no prior
timestamp exists. -/
def buildBlocklistRequest (link : BlocklistLink) (lastPull : Option Nat)
    (force : Bool) : BlocklistRequest :=
  { url := link.url, ifModifiedSince := if force then none else lastPull }

/-- A fetched blocklist line becomes a decision with list origin, the
link's scope/remediation/duration, and the blocklist name as scenario. -/
def blocklistDecision (link : BlocklistLink) (now v : Nat) : Decision :=
  { origin := .list, scope := link.scope, value := v, dtype := link.remediation,
    scenario := link.name, untilTime := now + link.duration }

/-- What a blocklist fetch leaves behind: the stored last-pull timestamp
after the call, the decisions produced, and their grouping alert. -/
structure PullBlocklistResult where
  lastPull : Option Nat
  decisions : List Decision
  alerts : List Alert
deriving DecidableEq, Repr

/-- Modelled from the spec: PullBlocklist (apic.go, absent from src/).
A not-modified answer is a success with zero decisions and an unchanged
stored timestamp; a modified answer yields one decision per line, one
alert for the blocklist, and advances the stored timestamp to now; a
network failure is returned as the error. -/
def pullBlocklist (lastPull : Option Nat) (force : Bool)
    (respond : Option Nat → BlocklistResponse) (link : BlocklistLink) (now : Nat) :
    Except String PullBlocklistResult :=
  let req := buildBlocklistRequest link lastPull force
  match respond req.ifModifiedSince with
  | .failure e => .error e
  | .notModified => .ok { lastPull := lastPull, decisions := [], alerts := [] }
  | .modified lines =>
    let ds := lines.map (blocklistDecision link now)
    .ok { lastPull := some now, decisions := ds,
          alerts := [{ sourceScope := "lists:" ++ link.name, scenario := link.name,
                       decisions := ds }] }

/-- Modelled from the spec: the automatic force-refresh trigger (apic.go,
absent from src/).  A blocklist must be force-fetched when an existing
stored decision it owns is within the margin of expiring. -/
def shouldForcePullBlocklist (stored : List Decision) (name : String)
    (now margin : Nat) : Bool :=
  stored.any fun d =>
    d.origin == Origin.list && d.scenario == name && d.untilTime < now + margin

/-- Modelled from the spec: the pull cycle's per-blocklist step (apic.go,
absent from src/): fetch the blocklist, forcing the refresh when the
caller asks for it or an owned decision is near expiry. -/
def updateBlocklist (stored : List Decision) (lastPull : Option Nat) (force : Bool)
    (respond : Option Nat → BlocklistResponse) (link : BlocklistLink)
    (now margin : Nat) : Except String PullBlocklistResult :=
  pullBlocklist lastPull
    (force || shouldForcePullBlocklist stored link.name now margin)
    respond link now

/-! ## Push coordinator -/

/-- The console sharing policy. -/
structure ConsoleConfig where
  shareManualDecisions : Bool := false
  shareTaintedScenarios : Bool := false
  shareCustomScenarios : Bool := false
  shareContext : Bool := false
deriving DecidableEq, Repr

/-- Modelled from the spec: shouldShareAlert (apic.go, absent from src/).
False when global sharing is off or the alert is simulated; otherwise the
first matching trust tier in the order manual > tainted > custom decides
through its gate. -/
def shouldShareAlert (alert : Alert) (cfg : ConsoleConfig) (shareSignals : Bool) :
    Bool :=
  if !shareSignals then false
  else if alert.simulated then false
  else if alert.decisions.any (fun d => d.origin == Origin.cscli) then
    cfg.shareManualDecisions
  else if alert.scenarioHash != "" then cfg.shareTaintedScenarios
  else cfg.shareCustomScenarios

/-- The signal-push endpoint accepts at most this many alerts per call. -/
def signalBatchSize : Nat := 50

/-- Split a list into consecutive batches of at most signalBatchSize
elements; one upload call is made per batch. -/
def toBatches {α : Type} : List α → List (List α)
  | [] => []
  | x :: xs =>
    (x :: xs).take signalBatchSize :: toBatches ((x :: xs).drop signalBatchSize)
termination_by l => l.length
decreasing_by
  simp only [List.length_drop, List.length_cons, signalBatchSize]
  omega

/-- Modelled from the spec: one trigger of the Push Coordinator (apic.go,
absent from src/).  Drain the queued alerts, drop those failing
shouldShareAlert, and upload the rest in order, in batches of at most
signalBatchSize per HTTP call. -/
def pushDrain (queued : List Alert) (cfg : ConsoleConfig) (shareSignals : Bool) :
    List (List Alert) :=
  toBatches (queued.filter fun a => shouldShareAlert a cfg shareSignals)

/-! ## Pull entry point and metrics -/

/-- A calendar timestamp, as stored for machines and bouncers.  The Go zero
time is year 1, January 1, midnight. -/
structure Timestamp where
  year : Nat := 1
  month : Nat := 1
  day : Nat := 1
  hour : Nat := 0
  minute : Nat := 0
  second : Nat := 0
deriving DecidableEq, Repr

/-- A registered machine: its identifier, active scenario names, and
activity timestamps. -/
structure Machine where
  machineId : String
  scenarios : List String := []
  lastPush : Timestamp := {}
  lastUpdate : Timestamp := {}
deriving DecidableEq, Repr

/-- A registered bouncer: its name and last-pull timestamp. -/
structure Bouncer where
  name : String
  lastPull : Timestamp := {}
deriving DecidableEq, Repr

/-- Modelled from the spec: FetchScenariosListFromDB (apic.go, absent from
src/): the distinct scenario names of all registered machines. -/
def fetchScenariosListFromDB (machines : List Machine) : List String :=
  (machines.map (·.scenarios)).flatten.dedup

/-- The observable outcome of one Pull invocation: whether the remote
stream endpoint was contacted, the informational log lines, the stored
decisions afterwards, and the alerts created. -/
structure PullResult where
  contactedRemote : Bool
  logs : List String
  stored : List Decision
  alerts : List Alert
deriving DecidableEq, Repr

/-- Modelled from the spec: Pull (apic.go, absent from src/).  With an
empty scenario list the engine logs and returns successfully without
contacting the remote service; otherwise it runs PullTop. -/
def pull (machines : List Machine) (stored : List Decision) (wl : CapiWhitelist)
    (allowlist : List Nat) (fetch : Except String StreamResponse) (now : Nat) :
    Except String PullResult :=
  if (fetchScenariosListFromDB machines).isEmpty then
    .ok { contactedRemote := false,
          logs := ["scenario list is empty, will not pull yet"],
          stored := stored, alerts := [] }
  else
    match pullTop stored wl allowlist fetch now with
    | .error e => .error e
    | .ok (st, al) =>
      .ok { contactedRemote := true, logs := [], stored := st, alerts := al }

/-- Left-pad the decimal rendering of a number with zeros to the width. -/
def zeroPad (w n : Nat) : String :=
  let s := toString n
  String.mk (List.replicate (w - s.length) '0') ++ s

/-- Render a timestamp in RFC3339 (UTC). -/
def formatRFC3339 (t : Timestamp) : String :=
  zeroPad 4 t.year ++ "-" ++ zeroPad 2 t.month ++ "-" ++ zeroPad 2 t.day ++ "T" ++
    zeroPad 2 t.hour ++ ":" ++ zeroPad 2 t.minute ++ ":" ++ zeroPad 2 t.second ++ "Z"

/-- One bouncer entry of the metrics payload. -/
structure MetricsBouncerInfo where
  customName : String
  lastPull : String
deriving DecidableEq, Repr

/-- One machine entry of the metrics payload. -/
structure MetricsAgentInfo where
  name : String
  lastPush : String
  lastUpdate : String
deriving DecidableEq, Repr

/-- The metrics payload.  The collections are Option to mirror the nullable
wire encoding: some (possibly empty) list means the key is present and
non-null. -/
structure Metrics where
  bouncers : Option (List MetricsBouncerInfo)
  machines : Option (List MetricsAgentInfo)
deriving DecidableEq, Repr

/-- Modelled from the spec: GetMetrics (apic.go, absent from src/).  Start
from empty non-null collections and append one entry per registered
bouncer (name, last pull) and machine (name, last push, last update), with
timestamps rendered in RFC3339. -/
def getMetrics (machines : List Machine) (bouncers : List Bouncer) : Metrics :=
  { bouncers := some (bouncers.map fun b =>
      { customName := b.name, lastPull := formatRFC3339 b.lastPull }),
    machines := some (machines.map fun m =>
      { name := m.machineId, lastPush := formatRFC3339 m.lastPush,
        lastUpdate := formatRFC3339 m.lastUpdate }) }

/-! ## Helper definitions for the specification theorems -/

/-- The empty alert of a remote-list scenario, as createAlertForDecision
opens it. -/
def listAlert (s : String) : Alert := { sourceScope := "lists:" ++ s, scenario := s }

/-- One step of first-occurrence deduplication of grouping keys. -/
def dedupStep (acc : List String) (s : String) : List String :=
  if acc.contains s then acc else acc ++ [s]

/-- First-occurrence deduplication of a key list, appended to acc. -/
def dedupKeys (acc ks : List String) : List String := ks.foldl dedupStep acc

/-- The static whitelist of the worked example: addresses 9.2.3.4 and
7.2.3.4, ranges 13.2.3.0/24 and 11.2.3.0/24. -/
def wlExample : CapiWhitelist :=
  { ips := [ipv4 9 2 3 4, ipv4 7 2 3 4],
    cidrs := [{ base := ipv4 13 2 3 0, maskLen := 24 },
              { base := ipv4 11 2 3 0, maskLen := 24 }] }

/-- The allowlist pulled in the same cycle of the worked example. -/
def allowlistExample : List Nat := [ipv4 10 2 3 4]

/-- A one-decision new-decisions group of the worked example (24h = 86400s). -/
def newItemExample (s : String) (v : Nat) : NewItem :=
  { scenario := s, scope := "Ip", decisions := [{ value := v, duration := 86400 }] }

/-- The incoming community batch of the worked example. -/
def respExample : StreamResponse :=
  { deleted := [],
    newItems := [newItemExample "crowdsecurity/test1" (ipv4 13 2 3 4),
                 newItemExample "crowdsecurity/test1" (ipv4 2 2 3 4),
                 newItemExample "crowdsecurity/test2" (ipv4 13 2 3 5),
                 newItemExample "crowdsecurity/test1" (ipv4 6 2 3 4),
                 newItemExample "crowdsecurity/test1" (ipv4 9 2 3 4),
                 newItemExample "crowdsecurity/test1" (ipv4 10 2 3 4)] }

/-- The decisions of the worked example that survive the whitelist. -/
def keptExample : List Decision :=
  [{ origin := .capi, scope := "Ip", value := ipv4 2 2 3 4, dtype := "ban",
     scenario := "crowdsecurity/test1", untilTime := 86400 },
   { origin := .capi, scope := "Ip", value := ipv4 6 2 3 4, dtype := "ban",
     scenario := "crowdsecurity/test1", untilTime := 86400 }]

/-- A blocklist link, as the tests use it. -/
def blLinkExample : BlocklistLink :=
  { url := "http://api.crowdsec.net/blocklist1", name := "blocklist1",
    scope := "Ip", remediation := "ban", duration := 86400 }

/-- A stored decision owned by blocklist1 that is near expiry. -/
def nearExpiryDecision : Decision :=
  { origin := .list, scope := "Ip", value := ipv4 9 9 9 9, dtype := "ban",
    scenario := "blocklist1", untilTime := 3600 }

/-- A community decision, for concrete witnesses. -/
def capiDecisionExample (v : Nat) : Decision :=
  { origin := .capi, scope := "Ip", value := v, dtype := "ban",
    scenario := "crowdsecurity/ssh-bf", untilTime := 86400 }

/-- A remote-list decision of the given scenario, for concrete witnesses. -/
def listDecisionExample (s : String) (v : Nat) : Decision :=
  { origin := .list, scope := "Ip", value := v, dtype := "ban",
    scenario := s, untilTime := 86400 }

/-- A non-simulated shareable alert, as the push test builds them. -/
def pushAlertExample : Alert :=
  { sourceScope := "", scenario := "crowdsec/test", scenarioHash := "certified",
    simulated := false }

/-- A simulated alert, which must never be uploaded. -/
def simulatedAlertExample : Alert :=
  { sourceScope := "", scenario := "crowdsec/test", scenarioHash := "certified",
    simulated := true }

/-- A console configuration with every sharing gate open. -/
def shareAllConfig : ConsoleConfig :=
  { shareManualDecisions := true, shareTaintedScenarios := true,
    shareCustomScenarios := true, shareContext := true }

/-! ## Theorems -/

/-- Appending to a fixed string on the left is injective. -/
theorem append_left_cancel (p s t : String) (h : p ++ s = p ++ t) : s = t := by
  apply String.ext
  have hd := congrArg String.data h
  simp only [String.data_append] at hd
  exact List.append_cancel_left hd

/-- The boolean equality of two strings with a common left part. -/
theorem beq_append_left (p s t : String) : (p ++ s == p ++ t) = (s == t) := by
  by_cases h : s = t
  · subst h; simp
  · have h' : p ++ s ≠ p ++ t := fun hc => h (append_left_cancel p s t hc)
    simp [h, h']

/-- Claim C4: a blocklist fetch without force sends no conditional header
when no timestamp is stored, and a 200 answer sets the stored timestamp;
with a stored timestamp the request carries that timestamp as its
conditional header, and a 304 answer succeeds with zero decisions and the
stored timestamp exactly unchanged. -/
theorem pullBlocklist_conditional_fetch
    (link : BlocklistLink) (now t : Nat) (lines : List Nat)
    (respond respond' : Option Nat → BlocklistResponse)
    (h1 : respond none = .modified lines)
    (h2 : respond' (some t) = .notModified) :
    (buildBlocklistRequest link none false).ifModifiedSince = none ∧
    pullBlocklist none false respond link now =
      .ok { lastPull := some now,
            decisions := lines.map (blocklistDecision link now),
            alerts := [{ sourceScope := "lists:" ++ link.name, scenario := link.name,
                         decisions := lines.map (blocklistDecision link now) }] } ∧
    (buildBlocklistRequest link (some t) false).ifModifiedSince = some t ∧
    pullBlocklist (some t) false respond' link now =
      .ok { lastPull := some t, decisions := [], alerts := [] } := by
  refine ⟨rfl, ?_, rfl, ?_⟩ <;>
    simp [pullBlocklist, buildBlocklistRequest, h1, h2]

/-- Witness for C4: the 304 path at a concrete link and timestamp. -/
theorem pullBlocklist_conditional_fetch_witness :
    pullBlocklist (some 7) false (fun _ => .notModified) blLinkExample 100 =
      .ok { lastPull := some 7, decisions := [], alerts := [] } :=
  (pullBlocklist_conditional_fetch blLinkExample 100 7 []
    (fun _ => .modified []) (fun _ => .notModified) rfl rfl).2.2.2

/-- Claim C5: when a stored decision owned by the blocklist is within the
expiry margin, the pull cycle fetches that blocklist with forced refresh:
the request omits the If-Modified-Since header although a prior timestamp
exists. -/
theorem updateBlocklist_force_near_expiry
    (stored : List Decision) (link : BlocklistLink) (now margin t : Nat)
    (respond : Option Nat → BlocklistResponse)
    (h : ∃ d ∈ stored, d.origin = .list ∧ d.scenario = link.name ∧
          d.untilTime < now + margin) :
    shouldForcePullBlocklist stored link.name now margin = true ∧
    (buildBlocklistRequest link (some t)
        (shouldForcePullBlocklist stored link.name now margin)).ifModifiedSince
      = none ∧
    updateBlocklist stored (some t) false respond link now margin =
      pullBlocklist (some t) true respond link now := by
  have hf : shouldForcePullBlocklist stored link.name now margin = true := by
    rcases h with ⟨d, hd, h1, h2, h3⟩
    refine List.any_eq_true.mpr ⟨d, hd, ?_⟩
    simp [h1, h2, h3]
  exact ⟨hf, by simp [buildBlocklistRequest, hf], by simp [updateBlocklist, hf]⟩

/-- Witness for C5: a near-expiry decision of blocklist1 forces the fetch. -/
theorem updateBlocklist_force_near_expiry_witness :
    shouldForcePullBlocklist [nearExpiryDecision] "blocklist1" 1000 86400 = true :=
  (updateBlocklist_force_near_expiry [nearExpiryDecision] blLinkExample 1000 86400 7
    (fun _ => .notModified)
    ⟨nearExpiryDecision, by simp [nearExpiryDecision], by decide, by decide, by decide⟩).1

/-- Claim C7: shouldShareAlert is false whenever global sharing is off or
the alert is simulated; otherwise the trust tiers apply in precedence
order manual > tainted > custom and the result equals the applicable
tier's gate. -/
theorem shouldShareAlert_truth_table (alert : Alert) (cfg : ConsoleConfig) :
    shouldShareAlert alert cfg false = false ∧
    (alert.simulated = true → ∀ g, shouldShareAlert alert cfg g = false) ∧
    (alert.simulated = false →
      ((∃ d ∈ alert.decisions, d.origin = .cscli) →
        shouldShareAlert alert cfg true = cfg.shareManualDecisions) ∧
      ((∀ d ∈ alert.decisions, d.origin ≠ .cscli) → alert.scenarioHash ≠ "" →
        shouldShareAlert alert cfg true = cfg.shareTaintedScenarios) ∧
      ((∀ d ∈ alert.decisions, d.origin ≠ .cscli) → alert.scenarioHash = "" →
        shouldShareAlert alert cfg true = cfg.shareCustomScenarios)) := by
  refine ⟨by simp [shouldShareAlert], ?_, ?_⟩
  · intro hs g
    cases g <;> simp [shouldShareAlert, hs]
  · intro hs
    refine ⟨?_, ?_, ?_⟩
    · rintro ⟨d, hd, ho⟩
      have hm : alert.decisions.any (fun d => d.origin == Origin.cscli) = true :=
        List.any_eq_true.mpr ⟨d, hd, by simp [ho]⟩
      simp [shouldShareAlert, hs, hm]
    · intro hno hhash
      have hm : alert.decisions.any (fun d => d.origin == Origin.cscli) = false := by
        simp only [List.any_eq_false]
        intro d hd
        simp [hno d hd]
      simp [shouldShareAlert, hs, hm, hhash]
    · intro hno hhash
      have hm : alert.decisions.any (fun d => d.origin == Origin.cscli) = false := by
        simp only [List.any_eq_false]
        intro d hd
        simp [hno d hd]
      simp [shouldShareAlert, hs, hm, hhash]

/-- Claim C10: GetMetrics always answers with present (non-null) bouncer
and machine collections: empty for an empty registry, and otherwise one
entry per machine (name, last push, last update) and one per bouncer
(name, last pull), timestamps rendered in RFC3339. -/
theorem getMetrics_entries :
    getMetrics [] [] = { bouncers := some [], machines := some [] } ∧
    (∀ (ms : List Machine) (bs : List Bouncer),
      getMetrics ms bs =
        { bouncers := some (bs.map fun b =>
            { customName := b.name, lastPull := formatRFC3339 b.lastPull }),
          machines := some (ms.map fun m =>
            { name := m.machineId, lastPush := formatRFC3339 m.lastPush,
              lastUpdate := formatRFC3339 m.lastUpdate }) }) ∧
    getMetrics
      [{ machineId := "a" }, { machineId := "b" }, { machineId := "c" }]
      [{ name := "1" }, { name := "2" }, { name := "3" }] =
      { bouncers := some
          [{ customName := "1", lastPull := "0001-01-01T00:00:00Z" },
           { customName := "2", lastPull := "0001-01-01T00:00:00Z" },
           { customName := "3", lastPull := "0001-01-01T00:00:00Z" }],
        machines := some
          [{ name := "a", lastPush := "0001-01-01T00:00:00Z",
             lastUpdate := "0001-01-01T00:00:00Z" },
           { name := "b", lastPush := "0001-01-01T00:00:00Z",
             lastUpdate := "0001-01-01T00:00:00Z" },
           { name := "c", lastPush := "0001-01-01T00:00:00Z",
             lastUpdate := "0001-01-01T00:00:00Z" }] } := by
  refine ⟨rfl, fun ms bs => rfl, rfl⟩

/-- Claim C9: a pull invocation finding no registered scenario logs the
informational message and succeeds without contacting the remote stream
endpoint and without creating decisions or alerts — even when the remote
call would have failed. -/
theorem pull_empty_scenario_noop (machines : List Machine) (stored : List Decision)
    (wl : CapiWhitelist) (allowlist : List Nat) (fetch : Except String StreamResponse)
    (now : Nat) (h : ∀ m ∈ machines, m.scenarios = []) :
    pull machines stored wl allowlist fetch now =
      .ok { contactedRemote := false,
            logs := ["scenario list is empty, will not pull yet"],
            stored := stored, alerts := [] } := by
  have hempty : fetchScenariosListFromDB machines = [] := by
    unfold fetchScenariosListFromDB
    have : (machines.map (·.scenarios)).flatten = [] := by
      rw [List.flatten_eq_nil_iff]
      intro l hl
      rcases List.mem_map.mp hl with ⟨m, hm, rfl⟩
      exact h m hm
    rw [this]
    simp
  simp [pull, hempty]

/-- Witness for C9: one machine with no scenarios; the remote call would
error, yet pull is a successful no-op. -/
theorem pull_empty_scenario_noop_witness :
    pull [{ machineId := "m1" }] [] {} [] (.error "network down") 0 =
      .ok { contactedRemote := false,
            logs := ["scenario list is empty, will not pull yet"],
            stored := [], alerts := [] } :=
  pull_empty_scenario_noop [{ machineId := "m1" }] [] {} [] (.error "network down") 0
    (by intro m hm; simp at hm; rw [hm])

/-- Claim C6: in a pull cycle the deleted list removes exactly the stored
valid decisions it names by (scope, value): a named valid decision leaves
the store, an unnamed decision stays, nothing is added, an entry naming no
stored decision changes nothing, and the cycle returns success. -/
theorem pullTop_deleted_reconciliation (stored : List Decision)
    (deleted : List DeletedItem) (now : Nat) :
    pullTop stored {} [] (.ok { deleted := deleted }) now =
      .ok (applyDeleted now stored deleted, []) ∧
    (∀ d ∈ stored, now < d.untilTime → deletedMatches deleted d = true →
      d ∉ applyDeleted now stored deleted) ∧
    (∀ d ∈ stored, deletedMatches deleted d = false →
      d ∈ applyDeleted now stored deleted) ∧
    (∀ d, d ∈ applyDeleted now stored deleted → d ∈ stored) ∧
    (∀ item : DeletedItem,
      (∀ d ∈ stored, (item.scope == d.scope && item.values.contains d.value) = false) →
      applyDeleted now stored (item :: deleted) = applyDeleted now stored deleted) := by
  refine ⟨?_, ?_, ?_, ?_, ?_⟩
  · simp [pullTop, pullTopProcess, aggregate, fillAlertsWithDecisions,
      createAlertsForDecisions]
  · intro d _ hv hm hmem
    have := (List.mem_filter.mp hmem).2
    simp [hv, hm] at this
  · intro d hd hm
    exact List.mem_filter.mpr ⟨hd, by simp [hm]⟩
  · intro d hd
    exact (List.mem_filter.mp hd).1
  · intro item hitem
    unfold applyDeleted
    apply List.filter_congr
    intro d hd
    simp only [deletedMatches, List.any_cons]
    rw [hitem d hd]
    simp [deletedMatches]

/-- Claim C1: in a pull cycle, the incoming community batch 13.2.3.4,
2.2.3.4, 13.2.3.5, 6.2.3.4, 9.2.3.4, 10.2.3.4 filtered against the static
whitelist (9.2.3.4, 13.2.3.0/24, 11.2.3.0/24) and the allowlist pulled in
the same cycle (10.2.3.4) persists exactly the valid new decisions 2.2.3.4
and 6.2.3.4, grouped under the single community alert, while any
pre-existing stored decisions pass through untouched. -/
theorem pullTop_whitelist_example (stored : List Decision) :
    pullTop stored wlExample allowlistExample (.ok respExample) 0 =
      .ok (stored ++ keptExample,
           [{ sourceScope := communityScope, scenario := communityScope,
              decisions := keptExample }]) ∧
    keptExample.map (·.value) = [ipv4 2 2 3 4, ipv4 6 2 3 4] ∧
    (∀ d ∈ keptExample, 0 < d.untilTime) := by
  refine ⟨?_, rfl, by decide⟩
  have hstep : pullTop stored wlExample allowlistExample (.ok respExample) 0 =
      Except.ok (pullTopProcess stored wlExample allowlistExample respExample 0) := rfl
  rw [hstep]
  unfold pullTopProcess
  have h1 : applyDeleted 0 stored respExample.deleted = stored := by
    unfold applyDeleted
    apply List.filter_eq_self.mpr
    intro d _
    simp [respExample, deletedMatches]
  rw [h1]
  rfl

/-- On a community decision, createStep only asks whether a community
alert is already open. -/
theorem createStep_capi (acc : List Alert) (d : Decision) (hd : d.origin = .capi) :
    createStep acc d =
      if acc.any (fun a => a.sourceScope == communityScope) then acc
      else acc ++ [{ sourceScope := communityScope, scenario := communityScope }] := by
  simp only [createStep, decisionMatchesAlert, createAlertForDecision, hd]

/-- Once a community alert is open, walking further community decisions
opens nothing new. -/
theorem foldl_createStep_capi (ds : List Decision) (hd : ∀ d ∈ ds, d.origin = .capi)
    (acc : List Alert)
    (hacc : acc.any (fun a => a.sourceScope == communityScope) = true) :
    ds.foldl createStep acc = acc := by
  induction ds with
  | nil => rfl
  | cons d ds ih =>
    rw [List.foldl_cons, createStep_capi acc d (hd d (by simp)), if_pos hacc]
    exact ih (fun x hx => hd x (by simp [hx]))

/-- A nonempty all-community batch opens exactly the one community alert. -/
theorem createAlertsForDecisions_capi (ds : List Decision) (hne : ds ≠ [])
    (hd : ∀ d ∈ ds, d.origin = .capi) :
    createAlertsForDecisions ds =
      [{ sourceScope := communityScope, scenario := communityScope }] := by
  cases ds with
  | nil => exact absurd rfl hne
  | cons d rest =>
    unfold createAlertsForDecisions
    rw [List.foldl_cons, createStep_capi [] d (hd d (by simp))]
    simp only [List.any_nil, Bool.false_eq_true, if_false, List.nil_append]
    exact foldl_createStep_capi rest (fun x hx => hd x (by simp [hx])) _ (by simp)

/-- Filling the community alert with an all-community batch appends every
decision, in order. -/
theorem fill_capi (ds : List Decision) (hd : ∀ d ∈ ds, d.origin = .capi) :
    ∀ a : Alert, a.sourceScope = communityScope →
      fillAlertsWithDecisions [a] ds = [{ a with decisions := a.decisions ++ ds }] := by
  induction ds with
  | nil => intro a ha; simp [fillAlertsWithDecisions]
  | cons d ds ih =>
    intro a ha
    unfold fillAlertsWithDecisions
    rw [List.foldl_cons]
    have hstep : addToFirstMatching [a] d =
        [{ a with decisions := a.decisions ++ [d] }] := by
      have hm : decisionMatchesAlert a d = true := by
        simp [decisionMatchesAlert, hd d (by simp), ha]
      simp [addToFirstMatching, hm]
    rw [hstep]
    have := ih (fun x hx => hd x (by simp [hx])) { a with decisions := a.decisions ++ [d] } ha
    unfold fillAlertsWithDecisions at this
    rw [this]
    simp

/-- Claim C2: one pull cycle's remote-community decisions aggregate into
exactly one alert, labelled with the fixed community-scope identifier,
holding all of them — however many distinct scenarios they reference. -/
theorem aggregate_community_single_alert (ds : List Decision)
    (hne : ds ≠ []) (h : ∀ d ∈ ds, d.origin = .capi) :
    aggregate ds =
      [{ sourceScope := communityScope, scenario := communityScope,
         decisions := ds }] := by
  unfold aggregate
  rw [createAlertsForDecisions_capi ds hne h, fill_capi ds h _ rfl]
  simp

/-- Witness for C2: two community decisions of distinct values collapse
into the one community alert. -/
theorem aggregate_community_single_alert_witness :
    aggregate [capiDecisionExample (ipv4 1 2 3 4), capiDecisionExample (ipv4 1 2 3 5)] =
      [{ sourceScope := communityScope, scenario := communityScope,
         decisions := [capiDecisionExample (ipv4 1 2 3 4),
                       capiDecisionExample (ipv4 1 2 3 5)] }] :=
  aggregate_community_single_alert _ (by decide) (by decide)

/-- On a list decision, matching the empty alert of scenario s is exactly
scenario equality. -/
theorem decisionMatchesAlert_listAlert (s : String) (d : Decision)
    (hd : d.origin = .list) :
    decisionMatchesAlert (listAlert s) d = (s == d.scenario) := by
  simp only [decisionMatchesAlert, hd, listAlert]
  exact beq_append_left "lists:" s d.scenario

/-- Over alerts opened per scenario, the open-alert test of a list decision
is key membership. -/
theorem any_matches_map_listAlert (ss : List String) (d : Decision)
    (hd : d.origin = .list) :
    (ss.map listAlert).any (fun a => decisionMatchesAlert a d) =
      ss.contains d.scenario := by
  induction ss with
  | nil => rfl
  | cons s ss ih =>
    simp only [List.map_cons, List.any_cons, ih, decisionMatchesAlert_listAlert s d hd]
    by_cases h : s = d.scenario
    · subst h; simp
    · simp [h, Ne.symm h]

/-- On a list decision, createStep is first-occurrence key deduplication
under the listAlert embedding. -/
theorem createStep_list (ss : List String) (d : Decision) (hd : d.origin = .list) :
    createStep (ss.map listAlert) d = (dedupStep ss d.scenario).map listAlert := by
  unfold createStep dedupStep
  rw [any_matches_map_listAlert ss d hd]
  cases hc : ss.contains d.scenario
  · have hcd : createAlertForDecision d = listAlert d.scenario := by
      simp only [createAlertForDecision, hd, listAlert]
    simp [hcd, List.map_append]
  · simp

/-- Walking an all-list batch from per-scenario alerts stays in the
listAlert image, with first-occurrence deduplicated keys. -/
theorem foldl_createStep_list (ds : List Decision) (hd : ∀ d ∈ ds, d.origin = .list) :
    ∀ ss : List String,
      ds.foldl createStep (ss.map listAlert) =
        (dedupKeys ss (ds.map (·.scenario))).map listAlert := by
  induction ds with
  | nil => intro ss; rfl
  | cons d ds ih =>
    intro ss
    simp only [List.map_cons, dedupKeys, List.foldl_cons,
      createStep_list ss d (hd d (by simp))]
    exact ih (fun x hx => hd x (by simp [hx])) (dedupStep ss d.scenario)

/-- An all-list batch opens exactly the empty alerts of its
first-occurrence distinct scenario names. -/
theorem createAlertsForDecisions_list (ds : List Decision)
    (hd : ∀ d ∈ ds, d.origin = .list) :
    createAlertsForDecisions ds =
      (dedupKeys [] (ds.map (·.scenario))).map listAlert := by
  have h := foldl_createStep_list ds hd []
  simpa [createAlertsForDecisions] using h

/-- First-occurrence deduplication preserves freedom from duplicates. -/
theorem dedupKeys_nodup (ks : List String) :
    ∀ acc : List String, acc.Nodup → (dedupKeys acc ks).Nodup := by
  induction ks with
  | nil => intro acc h; exact h
  | cons s ks ih =>
    intro acc h
    simp only [dedupKeys, List.foldl_cons]
    apply ih
    unfold dedupStep
    by_cases hc : acc.contains s
    · rw [if_pos hc]; exact h
    · rw [if_neg hc]
      have hs : s ∉ acc := by
        intro hmem
        exact hc (by simpa using hmem)
      refine List.Nodup.append h (List.nodup_singleton s) ?_
      intro x hx hxs
      rw [List.mem_singleton.mp hxs] at hx
      exact hs hx

/-- Membership in the first-occurrence deduplication. -/
theorem mem_dedupKeys (ks : List String) :
    ∀ (acc : List String) (x : String),
      x ∈ dedupKeys acc ks ↔ x ∈ acc ∨ x ∈ ks := by
  induction ks with
  | nil => intro acc x; simp [dedupKeys]
  | cons s ks ih =>
    intro acc x
    simp only [dedupKeys, List.foldl_cons]
    rw [show List.foldl dedupStep (dedupStep acc s) ks = dedupKeys (dedupStep acc s) ks
      from rfl, ih]
    unfold dedupStep
    by_cases hc : acc.contains s
    · have hs : s ∈ acc := by simpa using hc
      rw [if_pos hc]
      simp only [List.mem_cons]
      constructor
      · rintro (h | h)
        · exact Or.inl h
        · exact Or.inr (Or.inr h)
      · rintro (h | rfl | h)
        · exact Or.inl h
        · exact Or.inl hs
        · exact Or.inr h
    · rw [if_neg hc]
      simp only [List.mem_append, List.mem_singleton, List.mem_cons]
      tauto

/-- On a list decision, routing into scenario-distinct well-labelled
alerts updates exactly the alert of its scenario. -/
theorem addToFirstMatching_list (d : Decision) (hd : d.origin = .list) :
    ∀ alerts : List Alert,
      (∀ a ∈ alerts, a.sourceScope = "lists:" ++ a.scenario) →
      ((alerts.map (·.scenario)).Nodup) →
      addToFirstMatching alerts d =
        alerts.map (fun a =>
          if a.scenario = d.scenario then { a with decisions := a.decisions ++ [d] }
          else a) := by
  intro alerts
  induction alerts with
  | nil => intro _ _; rfl
  | cons a rest ih =>
    intro hwf hnd
    have hndc : a.scenario ∉ rest.map (·.scenario) ∧ (rest.map (·.scenario)).Nodup := by
      have := hnd
      simp only [List.map_cons, List.nodup_cons] at this
      exact this
    have hm : decisionMatchesAlert a d = (a.scenario == d.scenario) := by
      simp only [decisionMatchesAlert, hd]
      rw [hwf a (by simp)]
      exact beq_append_left _ _ _
    by_cases hsc : a.scenario = d.scenario
    · simp only [addToFirstMatching, hm, hsc, beq_self_eq_true, if_true,
        List.map_cons, if_pos]
      congr 1
      have hrest : ∀ b ∈ rest,
          (if b.scenario = d.scenario then { b with decisions := b.decisions ++ [d] }
           else b) = b := by
        intro b hb
        apply if_neg
        intro hbs
        exact hndc.1 (List.mem_map.mpr ⟨b, hb, hbs.trans hsc.symm⟩)
      rw [List.map_congr_left hrest]
      exact (List.map_id rest).symm
    · have hmf : decisionMatchesAlert a d = false := by
        rw [hm]
        exact beq_eq_false_iff_ne.mpr hsc
      simp only [addToFirstMatching, hmf, Bool.false_eq_true, if_false,
        List.map_cons, if_neg hsc]
      congr 1
      exact ih (fun b hb => hwf b (by simp [hb])) hndc.2

/-- Filling scenario-distinct well-labelled alerts with an all-list batch
appends to each alert exactly its scenario's decisions, in input order. -/
theorem fill_list (ds : List Decision) (hd : ∀ d ∈ ds, d.origin = .list) :
    ∀ alerts : List Alert,
      (∀ a ∈ alerts, a.sourceScope = "lists:" ++ a.scenario) →
      ((alerts.map (·.scenario)).Nodup) →
      fillAlertsWithDecisions alerts ds =
        alerts.map (fun a =>
          { a with decisions :=
              a.decisions ++ ds.filter (fun x => x.scenario == a.scenario) }) := by
  induction ds with
  | nil =>
    intro alerts _ _
    simp only [fillAlertsWithDecisions, List.foldl_nil, List.filter_nil,
      List.append_nil]
    exact (List.map_id alerts).symm
  | cons d ds ih =>
    intro alerts hwf hnd
    unfold fillAlertsWithDecisions
    rw [List.foldl_cons, addToFirstMatching_list d (hd d (by simp)) alerts hwf hnd]
    have hwf' : ∀ a ∈ alerts.map (fun a =>
        if a.scenario = d.scenario then { a with decisions := a.decisions ++ [d] }
        else a), a.sourceScope = "lists:" ++ a.scenario := by
      intro a ha
      rcases List.mem_map.mp ha with ⟨b, hb, rfl⟩
      by_cases h : b.scenario = d.scenario <;> simp [h, hwf b hb]
    have hnd' : ((alerts.map (fun a =>
        if a.scenario = d.scenario then { a with decisions := a.decisions ++ [d] }
        else a)).map (·.scenario)).Nodup := by
      rw [List.map_map]
      have heq : ((·.scenario) ∘ (fun a : Alert =>
          if a.scenario = d.scenario then { a with decisions := a.decisions ++ [d] }
          else a)) = (·.scenario) := by
        funext b
        by_cases h : b.scenario = d.scenario <;> simp [h]
      rw [heq]
      exact hnd
    have hrec := ih (fun x hx => hd x (by simp [hx])) _ hwf' hnd'
    unfold fillAlertsWithDecisions at hrec
    rw [hrec, List.map_map]
    apply List.map_congr_left
    intro b _
    by_cases h : b.scenario = d.scenario
    · simp [Function.comp, h, List.filter_cons, List.append_assoc]
    · have hne : (d.scenario == b.scenario) = false :=
        beq_eq_false_iff_ne.mpr fun hc => h hc.symm
      simp [Function.comp, h, List.filter_cons, hne]

/-- Claim C3: remote-list decisions aggregate strictly by scenario name:
the alerts carry pairwise-distinct scenarios, one alert exists exactly for
each scenario occurring in the batch (repeats open nothing extra), each
alert holds precisely its scenario's decision instances in input order,
and no alert mixes two scenario names. -/
theorem aggregate_lists_group_by_scenario (ds : List Decision)
    (h : ∀ d ∈ ds, d.origin = .list) :
    (((aggregate ds).map (·.scenario)).Nodup) ∧
    (∀ s, s ∈ (aggregate ds).map (·.scenario) ↔ s ∈ ds.map (·.scenario)) ∧
    (∀ a ∈ aggregate ds,
      a.decisions = ds.filter (fun x => x.scenario == a.scenario)) ∧
    (∀ a ∈ aggregate ds, ∀ d₁ ∈ a.decisions, ∀ d₂ ∈ a.decisions,
      d₁.scenario = d₂.scenario) := by
  have hagg : aggregate ds =
      (dedupKeys [] (ds.map (·.scenario))).map (fun s =>
        { sourceScope := "lists:" ++ s, scenario := s,
          decisions := ds.filter (fun x => x.scenario == s) }) := by
    unfold aggregate
    rw [createAlertsForDecisions_list ds h]
    rw [fill_list ds h _
      (by intro a ha; rcases List.mem_map.mp ha with ⟨s, _, rfl⟩; rfl)
      (by
        rw [List.map_map]
        have heq : ((·.scenario) ∘ listAlert) = id := funext fun s => rfl
        rw [heq, List.map_id]
        exact dedupKeys_nodup _ [] List.nodup_nil)]
    rw [List.map_map]
    apply List.map_congr_left
    intro s _
    simp [Function.comp, listAlert]
  have hscen : (aggregate ds).map (·.scenario) = dedupKeys [] (ds.map (·.scenario)) := by
    rw [hagg, List.map_map]
    have heq : ((fun a : Alert => a.scenario) ∘ (fun s =>
        ({ sourceScope := "lists:" ++ s, scenario := s,
           decisions := ds.filter (fun x => x.scenario == s) } : Alert))) = id :=
      funext fun s => rfl
    rw [heq, List.map_id]
  refine ⟨?_, ?_, ?_, ?_⟩
  · rw [hscen]
    exact dedupKeys_nodup _ [] List.nodup_nil
  · intro s
    rw [hscen, mem_dedupKeys]
    simp
  · intro a ha
    rw [hagg] at ha
    rcases List.mem_map.mp ha with ⟨s, _, rfl⟩
    rfl
  · intro a ha d₁ h₁ d₂ h₂
    rw [hagg] at ha
    rcases List.mem_map.mp ha with ⟨s, _, rfl⟩
    have e₁ := (List.mem_filter.mp h₁).2
    have e₂ := (List.mem_filter.mp h₂).2
    simp only [beq_iff_eq] at e₁ e₂
    rw [e₁, e₂]

/-- Witness for C3: a batch repeating the identical list decision and
mixing two scenarios yields scenario-distinct alerts with full,
order-preserving decision lists. -/
theorem aggregate_lists_group_by_scenario_witness :
    ((((aggregate [listDecisionExample "crowdsecurity/http-bf" (ipv4 1 2 3 4),
        listDecisionExample "crowdsecurity/http-bf" (ipv4 1 2 3 4),
        listDecisionExample "crowdsecurity/ssh-bf" (ipv4 1 2 3 5)]).map
          (·.scenario)).Nodup)) ∧
    (∀ s, s ∈ (aggregate [listDecisionExample "crowdsecurity/http-bf" (ipv4 1 2 3 4),
        listDecisionExample "crowdsecurity/http-bf" (ipv4 1 2 3 4),
        listDecisionExample "crowdsecurity/ssh-bf" (ipv4 1 2 3 5)]).map (·.scenario) ↔
      s ∈ ([listDecisionExample "crowdsecurity/http-bf" (ipv4 1 2 3 4),
        listDecisionExample "crowdsecurity/http-bf" (ipv4 1 2 3 4),
        listDecisionExample "crowdsecurity/ssh-bf" (ipv4 1 2 3 5)]).map (·.scenario)) ∧
    (∀ a ∈ aggregate [listDecisionExample "crowdsecurity/http-bf" (ipv4 1 2 3 4),
        listDecisionExample "crowdsecurity/http-bf" (ipv4 1 2 3 4),
        listDecisionExample "crowdsecurity/ssh-bf" (ipv4 1 2 3 5)],
      a.decisions = ([listDecisionExample "crowdsecurity/http-bf" (ipv4 1 2 3 4),
        listDecisionExample "crowdsecurity/http-bf" (ipv4 1 2 3 4),
        listDecisionExample "crowdsecurity/ssh-bf" (ipv4 1 2 3 5)]).filter
          (fun x => x.scenario == a.scenario)) ∧
    (∀ a ∈ aggregate [listDecisionExample "crowdsecurity/http-bf" (ipv4 1 2 3 4),
        listDecisionExample "crowdsecurity/http-bf" (ipv4 1 2 3 4),
        listDecisionExample "crowdsecurity/ssh-bf" (ipv4 1 2 3 5)],
      ∀ d₁ ∈ a.decisions, ∀ d₂ ∈ a.decisions, d₁.scenario = d₂.scenario) :=
  aggregate_lists_group_by_scenario
    [listDecisionExample "crowdsecurity/http-bf" (ipv4 1 2 3 4),
     listDecisionExample "crowdsecurity/http-bf" (ipv4 1 2 3 4),
     listDecisionExample "crowdsecurity/ssh-bf" (ipv4 1 2 3 5)] (by decide)

/-- Batching a list yields ceil(n/50) batches of at most 50 elements each
(stated with a fuel bound for the induction). -/
theorem toBatches_length_le {α : Type} : ∀ (n : Nat) (l : List α), l.length ≤ n →
    (toBatches l).length = (l.length + 49) / 50 ∧ ∀ b ∈ toBatches l, b.length ≤ 50 := by
  intro n
  induction n with
  | zero =>
    intro l hl
    have hnil : l = [] := List.length_eq_zero.mp (Nat.le_zero.mp hl)
    subst hnil
    simp [toBatches]
  | succ n ih =>
    intro l hl
    cases l with
    | nil => simp [toBatches]
    | cons x xs =>
      simp only [toBatches]
      have hlen : ((x :: xs).drop signalBatchSize).length ≤ n := by
        simp only [List.length_drop, List.length_cons, signalBatchSize]
        simp only [List.length_cons] at hl
        omega
      obtain ⟨h1, h2⟩ := ih _ hlen
      constructor
      · simp only [signalBatchSize] at h1 ⊢
        simp only [List.length_cons, List.length_drop, List.length_cons] at h1 ⊢
        rw [h1]
        omega
      · intro b hb
        rcases List.mem_cons.mp hb with rfl | hb
        · simp only [List.length_take, signalBatchSize]
          omega
        · exact h2 b hb

/-- Claim C8: a push trigger uploads the drained shareable alerts in
exactly ceil(N/50) calls of at most 50 alerts each; 100 shareable alerts
take exactly 2 calls and a single simulated alert takes 0. -/
theorem push_batching_spec :
    (∀ (queued : List Alert) (cfg : ConsoleConfig) (g : Bool),
      (∀ a ∈ queued, shouldShareAlert a cfg g = true) →
      (pushDrain queued cfg g).length = (queued.length + 49) / 50 ∧
      ∀ b ∈ pushDrain queued cfg g, b.length ≤ 50) ∧
    (pushDrain (List.replicate 100 pushAlertExample) shareAllConfig true).length = 2 ∧
    (pushDrain [simulatedAlertExample] shareAllConfig true).length = 0 := by
  have hgen : ∀ (queued : List Alert) (cfg : ConsoleConfig) (g : Bool),
      (∀ a ∈ queued, shouldShareAlert a cfg g = true) →
      (pushDrain queued cfg g).length = (queued.length + 49) / 50 ∧
      ∀ b ∈ pushDrain queued cfg g, b.length ≤ 50 := by
    intro queued cfg g hall
    have hfil : queued.filter (fun a => shouldShareAlert a cfg g) = queued :=
      List.filter_eq_self.mpr hall
    unfold pushDrain
    rw [hfil]
    exact toBatches_length_le queued.length queued (le_refl _)
  refine ⟨hgen, ?_, ?_⟩
  · have h := hgen (List.replicate 100 pushAlertExample) shareAllConfig true
      (by
        intro a ha
        rw [List.eq_of_mem_replicate ha]
        rfl)
    have h1 := h.1
    simpa using h1
  · have hfil : ([simulatedAlertExample].filter
        (fun a => shouldShareAlert a shareAllConfig true)) = [] := rfl
    unfold pushDrain
    rw [hfil]
    simp [toBatches]

end Apic
